import Mathlib

/-!
Verification development for the causal S-learner meta-learner
(`fklearn/causal/cate_learning/meta_learners.py`).

Dataframes are modelled column-major: a frame is an association list from
column names to columns, a column being the list of cell values in row
order.  Cell values are either strings (treatment labels, suggestions) or
exact rationals (features, predictions, flags); pandas floats are modelled
by `ℚ` since every claim is about exact structural arithmetic
(`uplift = on_treatment - on_control`, comparisons with `0`), not about
rounding.  Python exceptions are modelled with `Except`; an in-place
mutation of a frame object is modelled by threading the frame value
explicitly (functions that mutate their argument return the frame the
caller's object holds when control leaves, on both the normal and the
raising path).
-/

namespace FklearnCate

/-- A dataframe cell: a string label or an exact numeric value. -/
inductive Val where
  | str : String → Val
  | num : ℚ → Val
deriving DecidableEq, Repr

/-- Numeric view of a cell (only ever applied to numeric cells). -/
def Val.toQ : Val → ℚ
  | .num q => q
  | .str _ => 0

/-- A dataframe: association list from column name to column (values in row order). -/
abbrev Frame := List (String × List Val)

/-- `df[c]`: the column named `c` (first match; empty if absent). -/
def getCol : Frame → String → List Val
  | [], _ => []
  | p :: ps, c => if p.1 = c then p.2 else getCol ps c

/-- The column names of a frame, in order. -/
def colNames (f : Frame) : List String := f.map Prod.fst

/-- `df[c] = vs`: overwrite the column in place if present, else append it at
the end — pandas column-assignment semantics. -/
def setCol : Frame → String → List Val → Frame
  | [], c, vs => [(c, vs)]
  | p :: ps, c, vs => if p.1 = c then (p.1, vs) :: ps else p :: setCol ps c vs

/-- `df.drop(columns=[c])`: remove the column named `c`. -/
def dropCol : Frame → String → Frame
  | [], _ => []
  | p :: ps, c => if p.1 = c then dropCol ps c else p :: dropCol ps c

/-- `df.shape[0]`: the number of rows (length of the first column). -/
def nrows : Frame → Nat
  | [] => 0
  | p :: _ => p.2.length

/-- Keep the values whose mask entry is `true` (a pandas boolean row mask). -/
def applyMask : List Bool → List Val → List Val
  | true :: ms, v :: vs => v :: applyMask ms vs
  | false :: ms, _ :: vs => applyMask ms vs
  | _, _ => []

/-- `df.loc[mask, :]`: apply one row mask to every column. -/
def filterRows (df : Frame) (mask : List Bool) : Frame :=
  df.map (fun p => (p.1, applyMask mask p.2))

/-- Fuelled worker for `uniqueVals` (fuel makes it structurally recursive, so
kernel evaluation works; fuel `≥ length` never runs out). -/
def uniqueValsAux : Nat → List Val → List Val
  | 0, _ => []
  | _, [] => []
  | n + 1, v :: vs => v :: uniqueValsAux n (vs.filter (fun w => decide (w ≠ v)))

/-- `Series.unique()`: distinct values in first-seen order. -/
def uniqueVals (l : List Val) : List Val := uniqueValsAux l.length l

/-- The exceptions raised by the module (`MissingControlError`,
`MissingTreatmentError`, `MultipleTreatmentsError`), plus `learnerRaised`
standing for an arbitrary exception escaping the external model-fit or
predictor collaborator (the payload keeps distinct exceptions distinct). -/
inductive CausalError where
  | missingControlError
  | missingTreatmentError
  | multipleTreatmentsError
  | learnerRaised : Nat → CausalError
deriving DecidableEq, Repr

instance instDecEqExcept {ε α : Type} [DecidableEq ε] [DecidableEq α] :
    DecidableEq (Except ε α)
  | .error e, .error f =>
      if h : e = f then .isTrue (by rw [h]) else .isFalse (fun hc => h (Except.error.inj hc))
  | .error _, .ok _ => .isFalse (fun hc => Except.noConfusion hc)
  | .ok _, .error _ => .isFalse (fun hc => Except.noConfusion hc)
  | .ok a, .ok b =>
      if h : a = b then .isTrue (by rw [h]) else .isFalse (fun hc => h (Except.ok.inj hc))

/-- `TREATMENT_FEATURE = "is_treatment"`. -/
def TREATMENT_FEATURE : String := "is_treatment"

/-- `_append_treatment_feature`. -/
def appendTreatmentFeature (features : List String) (treatmentFeature : String) : List String :=
  features ++ [treatmentFeature]

/-- `_get_unique_treatments`: raise `MissingControlError` if the control name
is not among the column's unique values, else return the unique values other
than the control name. -/
def getUniqueTreatments (df : Frame) (treatmentCol controlName : String) :
    Except CausalError (List Val) :=
  if Val.str controlName ∈ uniqueVals (getCol df treatmentCol) then
    .ok ((uniqueVals (getCol df treatmentCol)).filter (fun v => decide (v ≠ Val.str controlName)))
  else
    .error .missingControlError

/-- The boolean row mask `(df[tc] == treatment_name) | (df[tc] == control_name)`. -/
def filterMask (vals : List Val) (treatmentName controlName : String) : List Bool :=
  vals.map (fun v => decide (v = Val.str treatmentName) || decide (v = Val.str controlName))

/-- `_filter_by_treatment`: validate control then treatment presence against
the full input's unique values, then keep the rows of the two groups. -/
def filterByTreatment (df : Frame) (treatmentCol treatmentName controlName : String) :
    Except CausalError Frame :=
  if Val.str controlName ∉ uniqueVals (getCol df treatmentCol) then
    .error .missingControlError
  else if Val.str treatmentName ∉ uniqueVals (getCol df treatmentCol) then
    .error .missingTreatmentError
  else
    .ok (filterRows df (filterMask (getCol df treatmentCol) treatmentName controlName))

/-- `_create_treatment_flag`: `df = df.copy()` (value semantics — the caller's
frame is untouched); then `_get_unique_treatments` runs first (so a missing
control raises inside it before the multiplicity check), then the `> 1`
multiplicity check, then the (now redundant) control check, then the
treatment check; finally `df[TREATMENT_FEATURE] = np.where(col == treatment, 1.0, 0.0)`. -/
def createTreatmentFlag (df : Frame) (treatmentCol treatmentName controlName : String) :
    Except CausalError Frame :=
  match getUniqueTreatments df treatmentCol controlName with
  | .error e => .error e
  | .ok uts =>
    if uts.length > 1 then
      .error .multipleTreatmentsError
    else if Val.str controlName ∉ uniqueVals (getCol df treatmentCol) then
      .error .missingControlError
    else if Val.str treatmentName ∉ uniqueVals (getCol df treatmentCol) then
      .error .missingTreatmentError
    else
      .ok (setCol df TREATMENT_FEATURE
        ((getCol df treatmentCol).map
          (fun v => if v = Val.str treatmentName then Val.num 1 else Val.num 0)))

/-- `_fit_by_treatment`: for each treatment in list order, filter, flag, fit;
collect fitted predictors and logs keyed by the treatment label in insertion
order.  Any exception (validation or learner) aborts the whole call. -/
def fitByTreatment {P L : Type} (df : Frame)
    (learner : Frame → Except CausalError (P × Frame × L))
    (treatmentCol controlName : String) :
    List String → Except CausalError (List (String × P) × List (String × L))
  | [] => .ok ([], [])
  | t :: ts => do
    let tcdf ← filterByTreatment df treatmentCol t controlName
    let flagged ← createTreatmentFlag tcdf treatmentCol t controlName
    let (learnerFcn, _, learnerLog) ← learner flagged
    let (fitted, logs) ← fitByTreatment df learner treatmentCol controlName ts
    .ok ((t, learnerFcn) :: fitted, (t, learnerLog) :: logs)

/-- `_predict_by_treatment_flag`: set `df[TREATMENT_FEATURE]` to all ones or
all zeros in place, run the predictor, then drop the flag column in place and
return the prediction column's values.  The second component is the state of
the caller's frame object when control leaves: on a predictor exception the
drop never runs, so the flag column is still there. -/
def predictByTreatmentFlag (df : Frame) (learnerFcn : Frame → Except CausalError Frame)
    (isTreatment : Bool) (predictionColumn : String) :
    Except CausalError (List Val) × Frame :=
  let flag := List.replicate (nrows df) (Val.num (if isTreatment then 1 else 0))
  let df1 := setCol df TREATMENT_FEATURE flag
  match learnerFcn df1 with
  | .error e => (.error e, df1)
  | .ok predictionDf =>
      (.ok (getCol predictionDf predictionColumn), dropCol df1 TREATMENT_FEATURE)

/-- `f"treatment_{t}__{prediction_column}_on_treatment"`. -/
def onTreatmentCol (t predictionColumn : String) : String :=
  "treatment_" ++ t ++ "__" ++ predictionColumn ++ "_on_treatment"

/-- `f"treatment_{t}__{prediction_column}_on_control"`. -/
def onControlCol (t predictionColumn : String) : String :=
  "treatment_" ++ t ++ "__" ++ predictionColumn ++ "_on_control"

/-- `f"treatment_{t}__uplift"`. -/
def upliftCol (t : String) : String := "treatment_" ++ t ++ "__uplift"

/-- The per-label uplift column names, in treatments-list order. -/
def upliftCols (treatments : List String) : List String := treatments.map upliftCol

/-- Element-wise Series subtraction. -/
def subVals (a b : List Val) : List Val :=
  List.zipWith (fun x y => Val.num (x.toQ - y.toQ)) a b

/-- Keep the candidate with the strictly greater value; on a tie the earlier
one survives. -/
def bestStep (b pr : String × ℚ) : String × ℚ := if pr.2 > b.2 then pr else b

/-- One left-to-right pass over (name, value) pairs keeping the first pair
with the greatest value: simultaneously pandas
`DataFrame.max(axis=1)` (second component) and `DataFrame.idxmax(axis=1)`
(first component, first occurrence of the maximum wins). -/
def bestOf (names : List String) (vals : List ℚ) : String × ℚ :=
  match names, vals with
  | n :: ns, v :: vs => (List.zip ns vs).foldl bestStep (n, v)
  | _, _ => ("", 0)

/-- The values, in row order, that the named columns take at row `i`
(numeric view) — one row of `df[names]`. -/
def rowAt (f : Frame) (names : List String) (i : Nat) : List ℚ :=
  names.map (fun c => Val.toQ ((getCol f c).getD i (Val.num 0)))

/-- The pattern `"__uplift"` as characters. -/
def upliftChars : List Char := ['_', '_', 'u', 'p', 'l', 'i', 'f', 't']

/-- Fuelled worker for `replaceUplift`: Python `str.replace("__uplift", "")` —
scan left to right, removing each non-overlapping occurrence. -/
def replaceUpliftAux : Nat → List Char → List Char
  | 0, l => l
  | _, [] => []
  | fuel + 1, c :: cs =>
      if upliftChars.isPrefixOf (c :: cs) then replaceUpliftAux fuel (cs.drop 7)
      else c :: replaceUpliftAux fuel cs

/-- `x.replace("__uplift", "")`. -/
def replaceUplift (s : String) : String := ⟨replaceUpliftAux s.data.length s.data⟩

/-- The scoring loop of `_simulate_treatment_effect`: for each treatment `t`,
in order, write `treatment_t__<p>_on_treatment`, then
`treatment_t__<p>_on_control`, then their difference
`treatment_t__uplift`, onto the working frame.  The two
`_predict_by_treatment_flag` calls mutate the working frame (flag added,
predictor run, flag dropped); a predictor exception aborts the whole loop. -/
def scoreTreatments (scored : Frame) (treatments : List String)
    (learners : String → Frame → Except CausalError Frame) (predictionColumn : String) :
    Except CausalError Frame :=
  match treatments with
  | [] => .ok scored
  | t :: ts =>
    match predictByTreatmentFlag scored (learners t) true predictionColumn with
    | (.error e, _) => .error e
    | (.ok predsT, s1) =>
      let s2 := setCol s1 (onTreatmentCol t predictionColumn) predsT
      match predictByTreatmentFlag s2 (learners t) false predictionColumn with
      | (.error e, _) => .error e
      | (.ok predsC, s3) =>
        let s4 := setCol s3 (onControlCol t predictionColumn) predsC
        let s5 := setCol s4 (upliftCol t)
          (subVals (getCol s4 (onTreatmentCol t predictionColumn))
                   (getCol s4 (onControlCol t predictionColumn)))
        scoreTreatments s5 ts learners predictionColumn

/-- The summary tail of `_simulate_treatment_effect`, run on the scored copy
after the per-treatment loop:
`uplift = scored_df[uplift_cols].max(axis=1)`, then
`suggested_treatment = np.where(uplift <= 0, control_name, scored_df[uplift_cols].idxmax(axis=1))`,
then `suggested_treatment = suggested_treatment.apply(lambda x: x.replace("__uplift", ""))`
(the column is assigned twice, the second assignment stripping the suffix;
the `uplift <= 0` test reads back the just-written `uplift` column). -/
def summarize (sL : Frame) (treatments : List String) (controlName : String) : Frame :=
  let ucols := upliftCols treatments
  let n := nrows sL
  let maxv := (List.range n).map (fun i => Val.num (bestOf ucols (rowAt sL ucols i)).2)
  let sM := setCol sL "uplift" maxv
  let sugg := (List.range n).map (fun i =>
    if Val.toQ ((getCol sM "uplift").getD i (Val.num 0)) ≤ 0 then Val.str controlName
    else Val.str (bestOf ucols (rowAt sM ucols i)).1)
  let sS := setCol sM "suggested_treatment" sugg
  setCol sS "suggested_treatment"
    ((getCol sS "suggested_treatment").map (fun v =>
      match v with
      | Val.str s => Val.str (replaceUplift s)
      | x => x))

/-- `_simulate_treatment_effect`.  `scored_df = df.copy()` on entry: every
in-place update (the per-treatment loop and the summary columns) acts on the
copy, so the second component — the state of the caller-owned frame object
when the call returns — is `df` itself.  Predictors are modelled as pure
functions of the frame value, matching the spec's proviso that fitted
predictors do not mutate their input. -/
def simulateTreatmentEffect (df : Frame) (treatments : List String) (controlName : String)
    (learners : String → Frame → Except CausalError Frame) (predictionColumn : String) :
    Except CausalError Frame × Frame :=
  (match scoreTreatments df treatments learners predictionColumn with
   | .error e => .error e
   | .ok sL => .ok (summarize sL treatments controlName),
   df)

/-- The prediction closure `p` returned by `causal_s_classification_learner`:
it forwards any future frame to `_simulate_treatment_effect` with the fitted
predictors captured at fit time. -/
def causalSClassificationLearnerP (treatments : List String) (controlName : String)
    (learners : String → Frame → Except CausalError Frame) (predictionColumn : String)
    (newDf : Frame) : Except CausalError Frame × Frame :=
  simulateTreatmentEffect newDf treatments controlName learners predictionColumn

/-! ### Independent, spec-side helper notions used only in theorem statements. -/

/-- The maximum of a nonempty list of rationals (`0` on the empty list). -/
def maxQ : List ℚ → ℚ
  | [] => 0
  | x :: xs => xs.foldl max x

/-- The first label, in list order, whose paired value equals `m`
(the spec's tie-break: first maximal label wins). -/
def firstMaxLabel (labels : List String) (vals : List ℚ) (m : ℚ) : String :=
  match (List.zip labels vals).find? (fun pr => decide (pr.2 = m)) with
  | some pr => pr.1
  | none => ""

/-- The three column names the simulator persists for one treatment label. -/
def genNames (predictionColumn t : String) : List String :=
  [onTreatmentCol t predictionColumn, onControlCol t predictionColumn, upliftCol t]

/-- All persisted per-label column names, in processing order. -/
def genNamesAll (predictionColumn : String) : List String → List String
  | [] => []
  | t :: ts => genNames predictionColumn t ++ genNamesAll predictionColumn ts

/-! ### Frame lemmas -/

theorem getCol_setCol_self (f : Frame) (c : String) (vs : List Val) :
    getCol (setCol f c vs) c = vs := by
  induction f with
  | nil => simp [setCol, getCol]
  | cons p ps ih =>
    by_cases h : p.1 = c
    · simp [setCol, h, getCol]
    · simp [setCol, h, getCol, ih]

theorem getCol_setCol_ne (f : Frame) (c c' : String) (vs : List Val) (h : c' ≠ c) :
    getCol (setCol f c vs) c' = getCol f c' := by
  induction f with
  | nil => simp [setCol, getCol, Ne.symm h]
  | cons p ps ih =>
    by_cases hp : p.1 = c
    · simp [setCol, hp, getCol, Ne.symm h]
    · by_cases hp2 : p.1 = c'
      · simp [setCol, getCol, hp, hp2, h]
      · simp [setCol, getCol, hp, hp2, ih]

theorem getCol_dropCol_ne (f : Frame) (c c' : String) (h : c' ≠ c) :
    getCol (dropCol f c) c' = getCol f c' := by
  induction f with
  | nil => simp [dropCol, getCol]
  | cons p ps ih =>
    by_cases hp : p.1 = c
    · simp [dropCol, hp, getCol, Ne.symm h, ih]
    · by_cases hp2 : p.1 = c'
      · simp [dropCol, getCol, hp, hp2, h]
      · simp [dropCol, getCol, hp, hp2, ih]

theorem fst_ne_of_mem_dropCol (f : Frame) (c : String) (q : String × List Val)
    (h : q ∈ dropCol f c) : q.1 ≠ c := by
  induction f with
  | nil => simp [dropCol] at h
  | cons p ps ih =>
    by_cases hp : p.1 = c
    · exact ih (by simpa [dropCol, hp] using h)
    · rcases (by simpa [dropCol, hp] using h : q = p ∨ q ∈ dropCol ps c) with h1 | h1
      · rw [h1]; exact hp
      · exact ih h1

theorem not_mem_colNames_dropCol (f : Frame) (c : String) :
    c ∉ colNames (dropCol f c) := by
  intro hmem
  rcases List.mem_map.1 hmem with ⟨q, hq, hq1⟩
  exact fst_ne_of_mem_dropCol f c q hq hq1

theorem mem_colNames_setCol (f : Frame) (c : String) (vs : List Val) :
    c ∈ colNames (setCol f c vs) := by
  induction f with
  | nil => simp [setCol, colNames]
  | cons p ps ih =>
    by_cases hp : p.1 = c
    · simp [setCol, hp, colNames]
    · simpa [setCol, hp, colNames] using Or.inr ih

theorem colNames_setCol_mem (f : Frame) (c : String) (vs : List Val)
    (h : c ∈ colNames f) : colNames (setCol f c vs) = colNames f := by
  induction f with
  | nil => simp [colNames] at h
  | cons p ps ih =>
    by_cases hp : p.1 = c
    · simp [setCol, hp, colNames]
    · have hcps : c ∈ colNames ps := by
        rcases (by simpa [colNames] using h : c = p.1 ∨ ∃ q ∈ ps, q.1 = c) with h1 | h1
        · exact absurd h1.symm hp
        · exact List.mem_map.2 (by simpa using h1)
      have h2 := ih hcps
      simp only [setCol, if_neg hp, colNames, List.map_cons]
      simpa [colNames] using h2

theorem colNames_setCol_not_mem (f : Frame) (c : String) (vs : List Val)
    (h : c ∉ colNames f) : colNames (setCol f c vs) = colNames f ++ [c] := by
  induction f with
  | nil => simp [setCol, colNames]
  | cons p ps ih =>
    have hp : ¬ p.1 = c := fun hh => h (by simp [colNames, hh])
    have hps : c ∉ colNames ps := fun hh =>
      h (by simpa [colNames] using Or.inr (by simpa [colNames] using hh))
    have h2 := ih hps
    simp only [setCol, if_neg hp, colNames, List.map_cons, List.cons_append]
    simpa [colNames] using h2

theorem setCol_not_mem (f : Frame) (c : String) (vs : List Val)
    (h : c ∉ colNames f) : setCol f c vs = f ++ [(c, vs)] := by
  induction f with
  | nil => simp [setCol]
  | cons p ps ih =>
    have hp : ¬ p.1 = c := fun hh => h (by simp [colNames, hh])
    have hps : c ∉ colNames ps := fun hh =>
      h (by simpa [colNames] using Or.inr (by simpa [colNames] using hh))
    simp [setCol, hp, ih hps]

theorem dropCol_setCol_not_mem (f : Frame) (c : String) (vs : List Val)
    (h : c ∉ colNames f) : dropCol (setCol f c vs) c = f := by
  induction f with
  | nil => simp [setCol, dropCol]
  | cons p ps ih =>
    have hp : ¬ p.1 = c := fun hh => h (by simp [colNames, hh])
    have hps : c ∉ colNames ps := fun hh =>
      h (by simpa [colNames] using Or.inr (by simpa [colNames] using hh))
    simp [setCol, hp, dropCol, ih hps]

/-! ### `uniqueVals` lemmas -/

theorem mem_uniqueValsAux (a : Val) :
    ∀ (n : Nat) (l : List Val), l.length ≤ n → (a ∈ uniqueValsAux n l ↔ a ∈ l) := by
  intro n
  induction n with
  | zero =>
    intro l hl
    have : l = [] := List.length_eq_zero.1 (Nat.le_zero.1 hl)
    subst this; simp [uniqueValsAux]
  | succ n ih =>
    intro l hl
    cases l with
    | nil => simp [uniqueValsAux]
    | cons v vs =>
      have hvs : vs.length ≤ n := by simp [List.length_cons] at hl; omega
      have hlen : (vs.filter (fun w => decide (w ≠ v))).length ≤ n :=
        le_trans (List.length_filter_le _ _) hvs
      have hunf : uniqueValsAux (n + 1) (v :: vs)
          = v :: uniqueValsAux n (vs.filter (fun w => decide (w ≠ v))) := rfl
      rw [hunf]
      constructor
      · intro h
        rcases List.mem_cons.1 h with h1 | h1
        · simp [h1]
        · have h2 := (ih _ hlen).1 h1
          rcases List.mem_filter.1 h2 with ⟨hmem, _⟩
          simp [List.mem_cons, hmem]
      · intro h
        rcases List.mem_cons.1 h with h1 | h1
        · exact List.mem_cons.2 (Or.inl h1)
        · by_cases hav : a = v
          · exact List.mem_cons.2 (Or.inl hav)
          · have h3 : a ∈ vs.filter (fun w => decide (w ≠ v)) :=
              List.mem_filter.2 ⟨h1, by simpa using hav⟩
            exact List.mem_cons.2 (Or.inr ((ih _ hlen).2 h3))

theorem mem_uniqueVals (a : Val) (l : List Val) : a ∈ uniqueVals l ↔ a ∈ l :=
  mem_uniqueValsAux a l.length l le_rfl

theorem nodup_uniqueValsAux :
    ∀ (n : Nat) (l : List Val), l.length ≤ n → (uniqueValsAux n l).Nodup := by
  intro n
  induction n with
  | zero => intro l _; simp [uniqueValsAux]
  | succ n ih =>
    intro l hl
    cases l with
    | nil => simp [uniqueValsAux]
    | cons v vs =>
      have hvs : vs.length ≤ n := by simp [List.length_cons] at hl; omega
      have hlen : (vs.filter (fun w => decide (w ≠ v))).length ≤ n :=
        le_trans (List.length_filter_le _ _) hvs
      refine List.nodup_cons.2 ⟨?_, ih _ hlen⟩
      intro hmem
      have := (mem_uniqueValsAux v n _ hlen).1 hmem
      rcases List.mem_filter.1 this with ⟨_, hne⟩
      simp at hne

theorem nodup_uniqueVals (l : List Val) : (uniqueVals l).Nodup :=
  nodup_uniqueValsAux l.length l le_rfl

/-! ### Distinctness of the generated column names -/

theorem ne_of_data_take (s1 s2 : String) (k : Nat)
    (h : s1.data.take k ≠ s2.data.take k) : s1 ≠ s2 :=
  fun he => h (by rw [he])

theorem ne_of_revdata_take (s1 s2 : String) (k : Nat)
    (h : s1.data.reverse.take k ≠ s2.data.reverse.take k) : s1 ≠ s2 :=
  fun he => h (by rw [he])

theorem take1_onTreatmentCol (t p : String) :
    (onTreatmentCol t p).data.take 1 = ['t'] := by
  have h1 : ("treatment_" : String).data = ['t','r','e','a','t','m','e','n','t','_'] := rfl
  simp only [onTreatmentCol, String.data_append, List.append_assoc, h1,
    List.cons_append, List.take]

theorem take1_onControlCol (t p : String) :
    (onControlCol t p).data.take 1 = ['t'] := by
  have h1 : ("treatment_" : String).data = ['t','r','e','a','t','m','e','n','t','_'] := rfl
  simp only [onControlCol, String.data_append, List.append_assoc, h1,
    List.cons_append, List.take]

theorem take1_upliftCol (t : String) : (upliftCol t).data.take 1 = ['t'] := by
  have h1 : ("treatment_" : String).data = ['t','r','e','a','t','m','e','n','t','_'] := rfl
  simp only [upliftCol, String.data_append, List.append_assoc, h1,
    List.cons_append, List.take]

theorem revtake4_onTreatmentCol (t p : String) :
    (onTreatmentCol t p).data.reverse.take 4 = ['t','n','e','m'] := by
  simp [onTreatmentCol, String.data_append, List.reverse_append, List.append_assoc, List.take]

theorem revtake4_onControlCol (t p : String) :
    (onControlCol t p).data.reverse.take 4 = ['l','o','r','t'] := by
  simp [onControlCol, String.data_append, List.reverse_append, List.append_assoc, List.take]

theorem revtake4_upliftCol (t : String) :
    (upliftCol t).data.reverse.take 4 = ['t','f','i','l'] := by
  simp [upliftCol, String.data_append, List.reverse_append, List.append_assoc, List.take]

theorem onTreatmentCol_ne_onControlCol (t p t2 p2 : String) :
    onTreatmentCol t p ≠ onControlCol t2 p2 :=
  ne_of_revdata_take _ _ 4 (by
    rw [revtake4_onTreatmentCol, revtake4_onControlCol]; decide)

theorem onTreatmentCol_ne_upliftCol (t p t2 : String) :
    onTreatmentCol t p ≠ upliftCol t2 :=
  ne_of_revdata_take _ _ 4 (by
    rw [revtake4_onTreatmentCol, revtake4_upliftCol]; decide)

theorem onControlCol_ne_upliftCol (t p t2 : String) :
    onControlCol t p ≠ upliftCol t2 :=
  ne_of_revdata_take _ _ 4 (by
    rw [revtake4_onControlCol, revtake4_upliftCol]; decide)

theorem treatmentFeature_ne_onTreatmentCol (t p : String) :
    TREATMENT_FEATURE ≠ onTreatmentCol t p :=
  ne_of_data_take _ _ 1 (by
    rw [take1_onTreatmentCol]; decide)

theorem treatmentFeature_ne_onControlCol (t p : String) :
    TREATMENT_FEATURE ≠ onControlCol t p :=
  ne_of_data_take _ _ 1 (by rw [take1_onControlCol]; decide)

theorem treatmentFeature_ne_upliftCol (t : String) :
    TREATMENT_FEATURE ≠ upliftCol t :=
  ne_of_data_take _ _ 1 (by rw [take1_upliftCol]; decide)

theorem uplift_ne_onTreatmentCol (t p : String) :
    "uplift" ≠ onTreatmentCol t p :=
  ne_of_data_take _ _ 1 (by rw [take1_onTreatmentCol]; decide)

theorem uplift_ne_onControlCol (t p : String) :
    "uplift" ≠ onControlCol t p :=
  ne_of_data_take _ _ 1 (by rw [take1_onControlCol]; decide)

theorem uplift_ne_upliftCol (t : String) : "uplift" ≠ upliftCol t :=
  ne_of_data_take _ _ 1 (by rw [take1_upliftCol]; decide)

theorem suggested_ne_onTreatmentCol (t p : String) :
    "suggested_treatment" ≠ onTreatmentCol t p :=
  ne_of_data_take _ _ 1 (by rw [take1_onTreatmentCol]; decide)

theorem suggested_ne_onControlCol (t p : String) :
    "suggested_treatment" ≠ onControlCol t p :=
  ne_of_data_take _ _ 1 (by rw [take1_onControlCol]; decide)

theorem suggested_ne_upliftCol (t : String) :
    "suggested_treatment" ≠ upliftCol t :=
  ne_of_data_take _ _ 1 (by rw [take1_upliftCol]; decide)

theorem upliftCol_inj (t t2 : String) (h : upliftCol t = upliftCol t2) : t = t2 := by
  have hd := congrArg String.data h
  simp only [upliftCol, String.data_append, List.append_assoc] at hd
  exact String.ext (List.append_cancel_right (List.append_cancel_left hd))

theorem onTreatmentCol_inj (t t2 p : String)
    (h : onTreatmentCol t p = onTreatmentCol t2 p) : t = t2 := by
  have hd := congrArg String.data h
  simp only [onTreatmentCol, String.data_append, List.append_assoc] at hd
  exact String.ext (List.append_cancel_right (List.append_cancel_left hd))

theorem onControlCol_inj (t t2 p : String)
    (h : onControlCol t p = onControlCol t2 p) : t = t2 := by
  have hd := congrArg String.data h
  simp only [onControlCol, String.data_append, List.append_assoc] at hd
  exact String.ext (List.append_cancel_right (List.append_cancel_left hd))

/-! ### `bestOf` is pandas `max(axis=1)` / `idxmax(axis=1)` -/

theorem foldl_bestStep_snd (l : List (String × ℚ)) :
    ∀ b : String × ℚ, (l.foldl bestStep b).2 = l.foldl (fun m pr => max m pr.2) b.2 := by
  induction l with
  | nil => intro b; simp
  | cons pr l ih =>
    intro b
    have hstep : (bestStep b pr).2 = max b.2 pr.2 := by
      by_cases h : pr.2 > b.2
      · simp [bestStep, h, max_eq_right (le_of_lt h)]
      · simp [bestStep, h, max_eq_left (le_of_not_lt h)]
    simp only [List.foldl_cons, ih, hstep]

theorem le_foldl_max (l : List (String × ℚ)) :
    ∀ m : ℚ, m ≤ l.foldl (fun m pr => max m pr.2) m := by
  induction l with
  | nil => intro m; simp
  | cons pr l ih =>
    intro m
    simp only [List.foldl_cons]
    exact le_trans (le_max_left m pr.2) (ih (max m pr.2))

theorem le_foldl_bestStep_snd (l : List (String × ℚ)) (b : String × ℚ) :
    b.2 ≤ (l.foldl bestStep b).2 := by
  rw [foldl_bestStep_snd]; exact le_foldl_max l b.2

theorem foldl_bestStep_find (l : List (String × ℚ)) :
    ∀ b : String × ℚ,
      (b :: l).find? (fun q => decide (q.2 = (l.foldl bestStep b).2))
        = some (l.foldl bestStep b) := by
  induction l with
  | nil => intro b; simp [List.find?]
  | cons pr l ih =>
    intro b
    have hfold : (pr :: l).foldl bestStep b = l.foldl bestStep (bestStep b pr) := by
      simp [List.foldl_cons]
    by_cases h : pr.2 > b.2
    · have hbp : bestStep b pr = pr := by simp [bestStep, h]
      rw [hfold, hbp]
      have hlt : b.2 < (l.foldl bestStep pr).2 :=
        lt_of_lt_of_le h (le_foldl_bestStep_snd l pr)
      rw [List.find?_cons_of_neg _ (by simp [ne_of_lt hlt])]
      exact ih pr
    · have hbp : bestStep b pr = b := by simp [bestStep, h]
      rw [hfold, hbp]
      have hple : pr.2 ≤ b.2 := le_of_not_lt h
      have hble : b.2 ≤ (l.foldl bestStep b).2 := le_foldl_bestStep_snd l b
      have hih := ih b
      by_cases hbeq : b.2 = (l.foldl bestStep b).2
      · rw [List.find?_cons_of_pos _ (by simp [hbeq])] at hih ⊢
        exact hih
      · have hpne : pr.2 ≠ (l.foldl bestStep b).2 := by
          intro hc
          rw [hc] at hple
          exact hbeq (le_antisymm hble hple)
        rw [List.find?_cons_of_neg _ (by simp [hbeq])]
        rw [List.find?_cons_of_neg _ (by simp [hpne])]
        rw [List.find?_cons_of_neg _ (by simp [hbeq])] at hih
        exact hih

theorem bestOf_snd_eq_maxQ (names : List String) (vals : List ℚ)
    (h : vals.length = names.length) : (bestOf names vals).2 = maxQ vals := by
  cases names with
  | nil =>
    have : vals = [] := List.length_eq_zero.1 (by simpa using h)
    rw [this]; rfl
  | cons n ns =>
    cases vals with
    | nil => simp at h
    | cons v vs =>
      have hlen : vs.length ≤ ns.length := le_of_eq (by simpa using h)
      have h1 : (List.zip ns vs).map Prod.snd = vs := List.map_snd_zip ns vs hlen
      calc (bestOf (n :: ns) (v :: vs)).2
          = ((List.zip ns vs).foldl bestStep (n, v)).2 := rfl
        _ = (List.zip ns vs).foldl (fun m pr => max m pr.2) v := foldl_bestStep_snd _ _
        _ = ((List.zip ns vs).map Prod.snd).foldl max v := (List.foldl_map _ _ _ _).symm
        _ = vs.foldl max v := by rw [h1]
        _ = maxQ (v :: vs) := rfl

theorem bestOf_firstMax (ts : List String) (vals : List ℚ)
    (h : vals.length = ts.length) (hne : ts ≠ []) :
    (bestOf (upliftCols ts) vals).1 = upliftCol (firstMaxLabel ts vals (maxQ vals))
      ∧ firstMaxLabel ts vals (maxQ vals) ∈ ts := by
  cases ts with
  | nil => exact absurd rfl hne
  | cons t ts =>
    cases vals with
    | nil => simp at h
    | cons v vs =>
      have hlen : vs.length ≤ ts.length := le_of_eq (by simpa using h)
      have hbest : bestOf (upliftCols (t :: ts)) (v :: vs)
          = (List.zip (ts.map upliftCol) vs).foldl bestStep (upliftCol t, v) := rfl
      generalize hbdef : (List.zip (ts.map upliftCol) vs).foldl bestStep (upliftCol t, v) = best at hbest
      have hfind := foldl_bestStep_find (List.zip (ts.map upliftCol) vs) (upliftCol t, v)
      rw [hbdef] at hfind
      have hzip : (upliftCol t, v) :: List.zip (ts.map upliftCol) vs
          = List.zip (upliftCol t :: ts.map upliftCol) (v :: vs) := rfl
      rw [hzip] at hfind
      have hmap : List.zip (upliftCol t :: ts.map upliftCol) (v :: vs)
          = (List.zip (t :: ts) (v :: vs)).map (Prod.map upliftCol id) := by
        have h2 := List.zip_map_left upliftCol (t :: ts) (v :: vs)
        simpa using h2
      rw [hmap, List.find?_map] at hfind
      have hcomp :
          ((fun q : String × ℚ => decide (q.2 = best.2)) ∘ Prod.map upliftCol id)
            = (fun q : String × ℚ => decide (q.2 = best.2)) := by
        funext q
        simp [Function.comp, Prod.map]
      rw [hcomp] at hfind
      cases hq : (List.zip (t :: ts) (v :: vs)).find? (fun q => decide (q.2 = best.2)) with
      | none => rw [hq] at hfind; simp at hfind
      | some q =>
        rw [hq] at hfind
        have hqbest : Prod.map upliftCol id q = best :=
          Option.some.inj (by simpa using hfind)
        have hsnd : best.2 = maxQ (v :: vs) := by
          rw [← hbest]
          exact bestOf_snd_eq_maxQ _ _ (by simpa [upliftCols] using h)
        have hfml : firstMaxLabel (t :: ts) (v :: vs) (maxQ (v :: vs)) = q.1 := by
          unfold firstMaxLabel
          rw [← hsnd, hq]
        have hfst : best.1 = upliftCol q.1 := by
          rw [← hqbest]
          simp [Prod.map]
        have hqmem : q.1 ∈ t :: ts := by
          have hz := List.mem_of_find?_eq_some hq
          have hz2 : (q.1, q.2) ∈ List.zip (t :: ts) (v :: vs) := by
            rw [Prod.mk.eta]; exact hz
          exact (List.of_mem_zip hz2).1
        constructor
        · rw [hbest, hfml]
          exact hfst
        · rw [hfml]
          exact hqmem

theorem getD_map_range (f : Nat → Val) (n i : Nat) (h : i < n) :
    ((List.range n).map f).getD i (Val.num 0) = f i := by
  simp [List.getD, List.getElem?_map, h]

/-! ### Mask lemmas -/

theorem applyMask_map (p : Val → Bool) :
    ∀ l : List Val, applyMask (l.map p) l = l.filter p := by
  intro l
  induction l with
  | nil => simp [applyMask]
  | cons v vs ih =>
    cases hp : p v <;> simp [applyMask, hp, List.filter_cons, ih]

/-! ### `_predict_by_treatment_flag` frame effects -/

theorem predict_snd_getCol (df : Frame) (g : Frame → Except CausalError Frame)
    (b : Bool) (p c : String) (h : c ≠ TREATMENT_FEATURE) :
    getCol (predictByTreatmentFlag df g b p).2 c = getCol df c := by
  simp only [predictByTreatmentFlag]
  cases hg : g (setCol df TREATMENT_FEATURE
      (List.replicate (nrows df) (Val.num (if b then 1 else 0)))) with
  | error e =>
    show getCol (setCol df TREATMENT_FEATURE
      (List.replicate (nrows df) (Val.num (if b then 1 else 0)))) c = getCol df c
    exact getCol_setCol_ne _ _ _ _ h
  | ok pdf =>
    show getCol (dropCol (setCol df TREATMENT_FEATURE
      (List.replicate (nrows df) (Val.num (if b then 1 else 0)))) TREATMENT_FEATURE) c = getCol df c
    rw [getCol_dropCol_ne _ _ _ h]
    exact getCol_setCol_ne _ _ _ _ h

theorem predict_ok_snd (df : Frame) (g : Frame → Except CausalError Frame)
    (b : Bool) (p : String) (r : List Val) (s' : Frame)
    (hTF : TREATMENT_FEATURE ∉ colNames df)
    (h : predictByTreatmentFlag df g b p = (.ok r, s')) : s' = df := by
  simp only [predictByTreatmentFlag] at h
  cases hg : g (setCol df TREATMENT_FEATURE
      (List.replicate (nrows df) (Val.num (if b then 1 else 0)))) with
  | error e => rw [hg] at h; simp at h
  | ok pdf =>
    rw [hg] at h
    dsimp only at h
    injection h with h1 h2
    rw [← h2]
    exact dropCol_setCol_not_mem _ _ _ hTF

/-! ### Generated names: disjointness packages -/

theorem genNames_disjoint (p t t2 : String) (hne : t ≠ t2) :
    ∀ c ∈ genNames p t, ∀ c2 ∈ genNames p t2, c ≠ c2 := by
  intro c hc c2 hc2
  rcases (by simpa [genNames] using hc :
      c = onTreatmentCol t p ∨ c = onControlCol t p ∨ c = upliftCol t) with rfl | rfl | rfl <;>
    rcases (by simpa [genNames] using hc2 :
        c2 = onTreatmentCol t2 p ∨ c2 = onControlCol t2 p ∨ c2 = upliftCol t2) with rfl | rfl | rfl
  · exact fun h => hne (onTreatmentCol_inj _ _ _ h)
  · exact onTreatmentCol_ne_onControlCol _ _ _ _
  · exact onTreatmentCol_ne_upliftCol _ _ _
  · exact Ne.symm (onTreatmentCol_ne_onControlCol _ _ _ _)
  · exact fun h => hne (onControlCol_inj _ _ _ h)
  · exact onControlCol_ne_upliftCol _ _ _
  · exact Ne.symm (onTreatmentCol_ne_upliftCol _ _ _)
  · exact Ne.symm (onControlCol_ne_upliftCol _ _ _)
  · exact fun h => hne (upliftCol_inj _ _ h)

theorem treatmentFeature_not_mem_genNames (p t : String) :
    TREATMENT_FEATURE ∉ genNames p t := by
  simp only [genNames, List.mem_cons, List.mem_singleton, not_or]
  exact ⟨treatmentFeature_ne_onTreatmentCol t p, treatmentFeature_ne_onControlCol t p,
    treatmentFeature_ne_upliftCol t, by simp⟩

/-! ### The scoring loop -/

theorem scoreTreatments_cons (s : Frame) (t : String) (ts : List String)
    (learners : String → Frame → Except CausalError Frame) (p : String) (out : Frame)
    (h : scoreTreatments s (t :: ts) learners p = .ok out) :
    ∃ predsT s1 predsC s3,
      predictByTreatmentFlag s (learners t) true p = (.ok predsT, s1) ∧
      predictByTreatmentFlag (setCol s1 (onTreatmentCol t p) predsT) (learners t) false p
        = (.ok predsC, s3) ∧
      scoreTreatments
        (setCol (setCol s3 (onControlCol t p) predsC) (upliftCol t)
          (subVals
            (getCol (setCol s3 (onControlCol t p) predsC) (onTreatmentCol t p))
            (getCol (setCol s3 (onControlCol t p) predsC) (onControlCol t p))))
        ts learners p = .ok out := by
  rw [scoreTreatments] at h
  cases hp1 : predictByTreatmentFlag s (learners t) true p with
  | mk r1 s1 =>
    rw [hp1] at h
    cases r1 with
    | error e => simp at h
    | ok predsT =>
      dsimp only at h
      cases hp2 : predictByTreatmentFlag (setCol s1 (onTreatmentCol t p) predsT)
          (learners t) false p with
      | mk r2 s3 =>
        rw [hp2] at h
        cases r2 with
        | error e => simp at h
        | ok predsC =>
          dsimp only at h
          exact ⟨predsT, s1, predsC, s3, rfl, hp2, h⟩

theorem scoreTreatments_getCol (ts : List String) :
    ∀ (s out : Frame) (learners : String → Frame → Except CausalError Frame) (p c : String),
      scoreTreatments s ts learners p = .ok out →
      c ≠ TREATMENT_FEATURE →
      (∀ t ∈ ts, c ≠ onTreatmentCol t p ∧ c ≠ onControlCol t p ∧ c ≠ upliftCol t) →
      getCol out c = getCol s c := by
  induction ts with
  | nil =>
    intro s out learners p c h _ _
    rw [scoreTreatments] at h
    cases h
    rfl
  | cons t ts ih =>
    intro s out learners p c h hTF hgen
    obtain ⟨predsT, s1, predsC, s3, hp1, hp2, hrest⟩ := scoreTreatments_cons _ _ _ _ _ _ h
    have ht := hgen t (by simp)
    have hts : ∀ t' ∈ ts, c ≠ onTreatmentCol t' p ∧ c ≠ onControlCol t' p ∧ c ≠ upliftCol t' :=
      fun t' hmem => hgen t' (List.mem_cons_of_mem _ hmem)
    have e1 : getCol s1 c = getCol s c := by
      have e := predict_snd_getCol s (learners t) true p c hTF
      rw [hp1] at e; exact e
    have e3 : getCol s3 c = getCol (setCol s1 (onTreatmentCol t p) predsT) c := by
      have e := predict_snd_getCol (setCol s1 (onTreatmentCol t p) predsT) (learners t) false p c hTF
      rw [hp2] at e; exact e
    rw [ih _ _ learners p c hrest hTF hts, getCol_setCol_ne _ _ _ _ ht.2.2,
      getCol_setCol_ne _ _ _ _ ht.2.1, e3, getCol_setCol_ne _ _ _ _ ht.1, e1]

theorem scoreTreatments_uplift (ts : List String) :
    ∀ (s out : Frame) (learners : String → Frame → Except CausalError Frame) (p t : String),
      ts.Nodup → t ∈ ts →
      scoreTreatments s ts learners p = .ok out →
      getCol out (upliftCol t) =
        subVals (getCol out (onTreatmentCol t p)) (getCol out (onControlCol t p)) := by
  induction ts with
  | nil => intro s out learners p t _ hmem _; simp at hmem
  | cons t0 ts ih =>
    intro s out learners p t hnd hmem h
    obtain ⟨predsT, s1, predsC, s3, hp1, hp2, hrest⟩ := scoreTreatments_cons _ _ _ _ _ _ h
    rcases List.mem_cons.1 hmem with rfl | hmem2
    · have ht0ts : t ∉ ts := (List.nodup_cons.1 hnd).1
      have v1 : getCol
            (setCol (setCol s3 (onControlCol t p) predsC) (upliftCol t)
              (subVals
                (getCol (setCol s3 (onControlCol t p) predsC) (onTreatmentCol t p))
                (getCol (setCol s3 (onControlCol t p) predsC) (onControlCol t p))))
            (upliftCol t)
          = subVals
              (getCol (setCol s3 (onControlCol t p) predsC) (onTreatmentCol t p))
              (getCol (setCol s3 (onControlCol t p) predsC) (onControlCol t p)) :=
        getCol_setCol_self _ _ _
      have hna : ∀ t' ∈ ts, upliftCol t ≠ onTreatmentCol t' p ∧ upliftCol t ≠ onControlCol t' p ∧
          upliftCol t ≠ upliftCol t' := by
        intro t' hmem'
        refine ⟨Ne.symm (onTreatmentCol_ne_upliftCol t' p t),
          Ne.symm (onControlCol_ne_upliftCol t' p t), fun hc => ?_⟩
        rw [upliftCol_inj t t' hc] at ht0ts
        exact ht0ts hmem'
      have hnb : ∀ t' ∈ ts, onTreatmentCol t p ≠ onTreatmentCol t' p ∧
          onTreatmentCol t p ≠ onControlCol t' p ∧ onTreatmentCol t p ≠ upliftCol t' := by
        intro t' hmem'
        refine ⟨fun hc => ?_, onTreatmentCol_ne_onControlCol t p t' p,
          onTreatmentCol_ne_upliftCol t p t'⟩
        rw [onTreatmentCol_inj t t' p hc] at ht0ts
        exact ht0ts hmem'
      have hnc : ∀ t' ∈ ts, onControlCol t p ≠ onTreatmentCol t' p ∧
          onControlCol t p ≠ onControlCol t' p ∧ onControlCol t p ≠ upliftCol t' := by
        intro t' hmem'
        refine ⟨Ne.symm (onTreatmentCol_ne_onControlCol t' p t p), fun hc => ?_,
          onControlCol_ne_upliftCol t p t'⟩
        rw [onControlCol_inj t t' p hc] at ht0ts
        exact ht0ts hmem'
      have p1 := scoreTreatments_getCol ts _ out learners p (upliftCol t) hrest
        (Ne.symm (treatmentFeature_ne_upliftCol t)) hna
      have p2 := scoreTreatments_getCol ts _ out learners p (onTreatmentCol t p) hrest
        (Ne.symm (treatmentFeature_ne_onTreatmentCol t p)) hnb
      have p3 := scoreTreatments_getCol ts _ out learners p (onControlCol t p) hrest
        (Ne.symm (treatmentFeature_ne_onControlCol t p)) hnc
      rw [p1, v1, p2, p3,
        getCol_setCol_ne _ _ _ _ (onTreatmentCol_ne_upliftCol t p t),
        getCol_setCol_ne _ _ _ _ (onControlCol_ne_upliftCol t p t)]
    · exact ih _ _ learners p t (List.nodup_cons.1 hnd).2 hmem2 hrest

theorem scoreTreatments_colNames (ts : List String) :
    ∀ (s out : Frame) (learners : String → Frame → Except CausalError Frame) (p : String),
      scoreTreatments s ts learners p = .ok out →
      TREATMENT_FEATURE ∉ colNames s →
      ts.Nodup →
      (∀ t ∈ ts, ∀ c ∈ genNames p t, c ∉ colNames s) →
      colNames out = colNames s ++ genNamesAll p ts := by
  induction ts with
  | nil =>
    intro s out learners p h _ _ _
    rw [scoreTreatments] at h
    cases h
    simp [genNamesAll]
  | cons t ts ih =>
    intro s out learners p h hTF hnd hfresh
    obtain ⟨predsT, s1, predsC, s3, hp1, hp2, hrest⟩ := scoreTreatments_cons _ _ _ _ _ _ h
    have ht0ts : t ∉ ts := (List.nodup_cons.1 hnd).1
    have hs1 : s1 = s := predict_ok_snd _ _ _ _ _ _ hTF hp1
    subst hs1
    have hT : onTreatmentCol t p ∉ colNames s1 := hfresh t (by simp) _ (by simp [genNames])
    have hC : onControlCol t p ∉ colNames s1 := hfresh t (by simp) _ (by simp [genNames])
    have hU : upliftCol t ∉ colNames s1 := hfresh t (by simp) _ (by simp [genNames])
    have hn2 : colNames (setCol s1 (onTreatmentCol t p) predsT)
        = colNames s1 ++ [onTreatmentCol t p] := colNames_setCol_not_mem _ _ _ hT
    have hTF2 : TREATMENT_FEATURE ∉ colNames (setCol s1 (onTreatmentCol t p) predsT) := by
      rw [hn2]
      simp only [List.mem_append, List.mem_singleton]
      rintro (hc | hc)
      · exact hTF hc
      · exact treatmentFeature_ne_onTreatmentCol t p hc
    have hs3 : s3 = setCol s1 (onTreatmentCol t p) predsT := predict_ok_snd _ _ _ _ _ _ hTF2 hp2
    subst hs3
    have hCn : onControlCol t p ∉ colNames (setCol s1 (onTreatmentCol t p) predsT) := by
      rw [hn2]
      simp only [List.mem_append, List.mem_singleton]
      rintro (hc | hc)
      · exact hC hc
      · exact Ne.symm (onTreatmentCol_ne_onControlCol t p t p) hc
    have hn4 : colNames (setCol (setCol s1 (onTreatmentCol t p) predsT) (onControlCol t p) predsC)
        = colNames s1 ++ [onTreatmentCol t p] ++ [onControlCol t p] := by
      rw [colNames_setCol_not_mem _ _ _ hCn, hn2]
    have hUn : upliftCol t
        ∉ colNames (setCol (setCol s1 (onTreatmentCol t p) predsT) (onControlCol t p) predsC) := by
      rw [hn4]
      simp only [List.mem_append, List.mem_singleton]
      rintro ((hc | hc) | hc)
      · exact hU hc
      · exact Ne.symm (onTreatmentCol_ne_upliftCol t p t) hc
      · exact Ne.symm (onControlCol_ne_upliftCol t p t) hc
    have hn5 : colNames
        (setCol (setCol (setCol s1 (onTreatmentCol t p) predsT) (onControlCol t p) predsC)
          (upliftCol t)
          (subVals
            (getCol (setCol (setCol s1 (onTreatmentCol t p) predsT) (onControlCol t p) predsC)
              (onTreatmentCol t p))
            (getCol (setCol (setCol s1 (onTreatmentCol t p) predsT) (onControlCol t p) predsC)
              (onControlCol t p))))
        = colNames s1 ++ genNames p t := by
      rw [colNames_setCol_not_mem _ _ _ hUn, hn4]
      simp [genNames, List.append_assoc]
    have hTF5 : TREATMENT_FEATURE ∉ colNames
        (setCol (setCol (setCol s1 (onTreatmentCol t p) predsT) (onControlCol t p) predsC)
          (upliftCol t)
          (subVals
            (getCol (setCol (setCol s1 (onTreatmentCol t p) predsT) (onControlCol t p) predsC)
              (onTreatmentCol t p))
            (getCol (setCol (setCol s1 (onTreatmentCol t p) predsT) (onControlCol t p) predsC)
              (onControlCol t p)))) := by
      rw [hn5]
      simp only [List.mem_append]
      rintro (hc | hc)
      · exact hTF hc
      · exact treatmentFeature_not_mem_genNames p t hc
    have hfresh5 : ∀ t' ∈ ts, ∀ c ∈ genNames p t', c ∉ colNames
        (setCol (setCol (setCol s1 (onTreatmentCol t p) predsT) (onControlCol t p) predsC)
          (upliftCol t)
          (subVals
            (getCol (setCol (setCol s1 (onTreatmentCol t p) predsT) (onControlCol t p) predsC)
              (onTreatmentCol t p))
            (getCol (setCol (setCol s1 (onTreatmentCol t p) predsT) (onControlCol t p) predsC)
              (onControlCol t p)))) := by
      intro t' hmem c hcmem
      rw [hn5]
      simp only [List.mem_append]
      have hne : t' ≠ t := fun he => ht0ts (he ▸ hmem)
      rintro (hc | hc)
      · exact hfresh t' (List.mem_cons_of_mem _ hmem) c hcmem hc
      · exact genNames_disjoint p t' t hne c hcmem c hc rfl
    have hout := ih _ _ learners p hrest hTF5 (List.nodup_cons.1 hnd).2 hfresh5
    rw [hout, hn5]
    simp [genNamesAll, List.append_assoc]

/-! ### The summary phase -/

theorem length_rowAt (f : Frame) (names : List String) (i : Nat) :
    (rowAt f names i).length = names.length := List.length_map _ _

theorem rowAt_congr (f g : Frame) (names : List String) (i : Nat)
    (h : ∀ c ∈ names, getCol f c = getCol g c) : rowAt f names i = rowAt g names i := by
  unfold rowAt
  exact List.map_congr_left (fun c hc => by rw [h c hc])

theorem summarize_uplift (sL : Frame) (ts : List String) (cname : String) :
    getCol (summarize sL ts cname) "uplift"
      = (List.range (nrows sL)).map
          (fun i => Val.num (maxQ (rowAt sL (upliftCols ts) i))) := by
  simp only [summarize]
  rw [getCol_setCol_ne _ _ _ _ (by decide : ("uplift" : String) ≠ "suggested_treatment"),
    getCol_setCol_ne _ _ _ _ (by decide : ("uplift" : String) ≠ "suggested_treatment"),
    getCol_setCol_self]
  refine List.map_congr_left (fun i _ => ?_)
  rw [bestOf_snd_eq_maxQ _ _ (by rw [length_rowAt])]

theorem summarize_upliftCol_preserved (sL : Frame) (ts : List String) (cname t : String) :
    getCol (summarize sL ts cname) (upliftCol t) = getCol sL (upliftCol t) := by
  simp only [summarize]
  rw [getCol_setCol_ne _ _ _ _ (Ne.symm (suggested_ne_upliftCol t)),
    getCol_setCol_ne _ _ _ _ (Ne.symm (suggested_ne_upliftCol t)),
    getCol_setCol_ne _ _ _ _ (Ne.symm (uplift_ne_upliftCol t))]

theorem summarize_onTreatmentCol_preserved (sL : Frame) (ts : List String) (cname t p : String) :
    getCol (summarize sL ts cname) (onTreatmentCol t p) = getCol sL (onTreatmentCol t p) := by
  simp only [summarize]
  rw [getCol_setCol_ne _ _ _ _ (Ne.symm (suggested_ne_onTreatmentCol t p)),
    getCol_setCol_ne _ _ _ _ (Ne.symm (suggested_ne_onTreatmentCol t p)),
    getCol_setCol_ne _ _ _ _ (Ne.symm (uplift_ne_onTreatmentCol t p))]

theorem summarize_onControlCol_preserved (sL : Frame) (ts : List String) (cname t p : String) :
    getCol (summarize sL ts cname) (onControlCol t p) = getCol sL (onControlCol t p) := by
  simp only [summarize]
  rw [getCol_setCol_ne _ _ _ _ (Ne.symm (suggested_ne_onControlCol t p)),
    getCol_setCol_ne _ _ _ _ (Ne.symm (suggested_ne_onControlCol t p)),
    getCol_setCol_ne _ _ _ _ (Ne.symm (uplift_ne_onControlCol t p))]

theorem summarize_suggested (sL : Frame) (ts : List String) (cname : String) (hne : ts ≠ []) :
    getCol (summarize sL ts cname) "suggested_treatment"
      = (List.range (nrows sL)).map (fun i =>
          if maxQ (rowAt sL (upliftCols ts) i) ≤ 0 then Val.str (replaceUplift cname)
          else Val.str (replaceUplift (upliftCol
            (firstMaxLabel ts (rowAt sL (upliftCols ts) i)
              (maxQ (rowAt sL (upliftCols ts) i)))))) := by
  simp only [summarize]
  rw [getCol_setCol_self, getCol_setCol_self, List.map_map]
  refine List.map_congr_left (fun i hi => ?_)
  have hilt : i < nrows sL := List.mem_range.1 hi
  have hget : getCol (setCol sL "uplift"
      ((List.range (nrows sL)).map
        (fun i => Val.num (bestOf (upliftCols ts) (rowAt sL (upliftCols ts) i)).2))) "uplift"
      = (List.range (nrows sL)).map
          (fun i => Val.num (bestOf (upliftCols ts) (rowAt sL (upliftCols ts) i)).2) :=
    getCol_setCol_self _ _ _
  have hrow : rowAt (setCol sL "uplift"
      ((List.range (nrows sL)).map
        (fun i => Val.num (bestOf (upliftCols ts) (rowAt sL (upliftCols ts) i)).2)))
      (upliftCols ts) i = rowAt sL (upliftCols ts) i := by
    refine rowAt_congr _ _ _ _ (fun c hc => ?_)
    rcases List.mem_map.1 hc with ⟨t, _, rfl⟩
    exact getCol_setCol_ne _ _ _ _ (Ne.symm (uplift_ne_upliftCol t))
  rw [Function.comp, hget, getD_map_range _ _ _ hilt, hrow]
  have hsnd : (bestOf (upliftCols ts) (rowAt sL (upliftCols ts) i)).2
      = maxQ (rowAt sL (upliftCols ts) i) :=
    bestOf_snd_eq_maxQ _ _ (by rw [length_rowAt])
  have hfst : (bestOf (upliftCols ts) (rowAt sL (upliftCols ts) i)).1
      = upliftCol (firstMaxLabel ts (rowAt sL (upliftCols ts) i)
          (maxQ (rowAt sL (upliftCols ts) i))) :=
    (bestOf_firstMax ts _ (by rw [length_rowAt]; exact List.length_map _ _) hne).1
  rw [hsnd, hfst]
  by_cases hc : maxQ (rowAt sL (upliftCols ts) i) ≤ 0 <;> simp [hc, Val.toQ]

theorem simulate_ok (df : Frame) (ts : List String) (cname : String)
    (learners : String → Frame → Except CausalError Frame) (p : String) (final : Frame)
    (h : (simulateTreatmentEffect df ts cname learners p).1 = .ok final) :
    ∃ sL, scoreTreatments df ts learners p = .ok sL ∧ final = summarize sL ts cname := by
  simp only [simulateTreatmentEffect] at h
  cases hs : scoreTreatments df ts learners p with
  | error e => rw [hs] at h; simp at h
  | ok sL =>
    rw [hs] at h
    dsimp only at h
    exact ⟨sL, rfl, (Except.ok.inj h).symm⟩

theorem mem_genNamesAll (p c : String) :
    ∀ ts : List String, c ∈ genNamesAll p ts ↔ ∃ t ∈ ts, c ∈ genNames p t := by
  intro ts
  induction ts with
  | nil => simp [genNamesAll]
  | cons t ts ih => simp [genNamesAll, ih]

theorem uplift_not_mem_genNamesAll (p : String) (ts : List String) :
    "uplift" ∉ genNamesAll p ts := by
  rw [mem_genNamesAll]
  rintro ⟨t, _, hc⟩
  rcases (by simpa [genNames] using hc :
      ("uplift" : String) = onTreatmentCol t p ∨ "uplift" = onControlCol t p ∨
        "uplift" = upliftCol t) with hc2 | hc2 | hc2
  · exact uplift_ne_onTreatmentCol t p hc2
  · exact uplift_ne_onControlCol t p hc2
  · exact uplift_ne_upliftCol t hc2

theorem suggested_not_mem_genNamesAll (p : String) (ts : List String) :
    "suggested_treatment" ∉ genNamesAll p ts := by
  rw [mem_genNamesAll]
  rintro ⟨t, _, hc⟩
  rcases (by simpa [genNames] using hc :
      ("suggested_treatment" : String) = onTreatmentCol t p ∨
        "suggested_treatment" = onControlCol t p ∨
        "suggested_treatment" = upliftCol t) with hc2 | hc2 | hc2
  · exact suggested_ne_onTreatmentCol t p hc2
  · exact suggested_ne_onControlCol t p hc2
  · exact suggested_ne_upliftCol t hc2

theorem summarize_colNames (sL : Frame) (ts : List String) (cname : String)
    (hu : "uplift" ∉ colNames sL) (hs : "suggested_treatment" ∉ colNames sL) :
    colNames (summarize sL ts cname) = colNames sL ++ ["uplift", "suggested_treatment"] := by
  simp only [summarize]
  have hsM : "suggested_treatment"
      ∉ colNames (setCol sL "uplift"
        ((List.range (nrows sL)).map
          (fun i => Val.num (bestOf (upliftCols ts) (rowAt sL (upliftCols ts) i)).2))) := by
    rw [colNames_setCol_not_mem _ _ _ hu]
    simp only [List.mem_append, List.mem_singleton]
    rintro (hc | hc)
    · exact hs hc
    · exact absurd hc (by decide)
  rw [colNames_setCol_mem _ _ _ (mem_colNames_setCol _ _ _),
    colNames_setCol_not_mem _ _ _ hsM, colNames_setCol_not_mem _ _ _ hu]
  simp

/-! ### Validation helpers -/

theorem getUniqueTreatments_ok (df : Frame) (tcol cname : String)
    (h : Val.str cname ∈ getCol df tcol) :
    getUniqueTreatments df tcol cname
      = .ok ((uniqueVals (getCol df tcol)).filter (fun v => decide (v ≠ Val.str cname))) := by
  have hu : Val.str cname ∈ uniqueVals (getCol df tcol) := (mem_uniqueVals _ _).2 h
  simp only [getUniqueTreatments, if_pos hu]

theorem getUniqueTreatments_err (df : Frame) (tcol cname : String)
    (h : Val.str cname ∉ getCol df tcol) :
    getUniqueTreatments df tcol cname = .error .missingControlError := by
  have hu : Val.str cname ∉ uniqueVals (getCol df tcol) :=
    fun hc => h ((mem_uniqueVals _ _).1 hc)
  simp only [getUniqueTreatments, if_neg hu]

theorem length_le_one_of_pairwise_eq {α : Type} (l : List α) (hnd : l.Nodup)
    (h : ∀ x ∈ l, ∀ y ∈ l, x = y) : l.length ≤ 1 := by
  cases l with
  | nil => simp
  | cons a l2 =>
    cases l2 with
    | nil => simp
    | cons b l3 =>
      have hab : a = b := h a (by simp) b (by simp)
      have hnb := (List.nodup_cons.1 hnd).1
      exact absurd (by rw [hab]; simp : a ∈ b :: l3) hnb

theorem one_lt_length_of_two_mem {α : Type} (l : List α) (a b : α)
    (ha : a ∈ l) (hb : b ∈ l) (hab : a ≠ b) : 1 < l.length := by
  cases l with
  | nil => simp at ha
  | cons x l2 =>
    cases l2 with
    | nil =>
      have ha2 : a = x := by simpa using ha
      have hb2 : b = x := by simpa using hb
      rw [ha2, hb2] at hab
      exact absurd rfl hab
    | cons y l3 => simp [List.length_cons]

theorem mem_treatment_filter (df : Frame) (tcol cname : String) (x : Val) :
    x ∈ (uniqueVals (getCol df tcol)).filter (fun v => decide (v ≠ Val.str cname))
      ↔ x ∈ getCol df tcol ∧ x ≠ Val.str cname := by
  rw [List.mem_filter]
  simp [mem_uniqueVals]

theorem createTreatmentFlag_missing_control (df : Frame) (tcol tname cname : String)
    (h : Val.str cname ∉ getCol df tcol) :
    createTreatmentFlag df tcol tname cname = .error .missingControlError := by
  simp only [createTreatmentFlag, getUniqueTreatments_err df tcol cname h]

/-! ### Claim theorems: validation and error behaviour -/

/-- **C6.** If the treatment column does not contain the control label, all
three validating operations — `_get_unique_treatments` (treatment-set
resolution), `_filter_by_treatment` (treatment-subset filtering) and
`_create_treatment_flag` (flag injection) — raise `MissingControlError`
(i.e. return the error and never a value). -/
theorem c6_missing_control (df : Frame) (tcol tname cname : String)
    (h : Val.str cname ∉ getCol df tcol) :
    getUniqueTreatments df tcol cname = .error .missingControlError
    ∧ filterByTreatment df tcol tname cname = .error .missingControlError
    ∧ createTreatmentFlag df tcol tname cname = .error .missingControlError := by
  have hu : Val.str cname ∉ uniqueVals (getCol df tcol) :=
    fun hc => h ((mem_uniqueVals _ _).1 hc)
  refine ⟨getUniqueTreatments_err df tcol cname h, ?_,
    createTreatmentFlag_missing_control df tcol tname cname h⟩
  simp only [filterByTreatment, if_pos hu]

theorem c6_missing_control_witness :
    getUniqueTreatments [("t", [Val.str "A"])] "t" "control" = .error .missingControlError
    ∧ filterByTreatment [("t", [Val.str "A"])] "t" "A" "control" = .error .missingControlError
    ∧ createTreatmentFlag [("t", [Val.str "A"])] "t" "A" "control"
        = .error .missingControlError :=
  c6_missing_control [("t", [Val.str "A"])] "t" "A" "control" (by decide)

/-- **C3 (amended).** Flag injection raises `MultipleTreatmentsError` whenever
the control label is present and the subset holds two or more distinct
non-control labels — even if the requested treatment label is absent.  But
when the control label is absent, `MissingControlError` is raised first
(inside the `_get_unique_treatments` call on line 61), not
`MultipleTreatmentsError`: the effective order is control-presence, then
multiplicity, then the redundant control check, then treatment-presence. -/
theorem c3_multiple_treatments (df : Frame) (tcol tname cname : String) :
    (Val.str cname ∈ getCol df tcol →
      (∃ a, a ∈ getCol df tcol ∧ a ≠ Val.str cname ∧
        ∃ b, b ∈ getCol df tcol ∧ b ≠ Val.str cname ∧ a ≠ b) →
      createTreatmentFlag df tcol tname cname = .error .multipleTreatmentsError)
    ∧ (Val.str cname ∉ getCol df tcol →
        createTreatmentFlag df tcol tname cname = .error .missingControlError) := by
  constructor
  · rintro hc ⟨a, ha, hane, b, hb, hbne, hab⟩
    have hau : a ∈ (uniqueVals (getCol df tcol)).filter (fun v => decide (v ≠ Val.str cname)) :=
      (mem_treatment_filter df tcol cname a).2 ⟨ha, hane⟩
    have hbu : b ∈ (uniqueVals (getCol df tcol)).filter (fun v => decide (v ≠ Val.str cname)) :=
      (mem_treatment_filter df tcol cname b).2 ⟨hb, hbne⟩
    have hlen : 1 < ((uniqueVals (getCol df tcol)).filter
        (fun v => decide (v ≠ Val.str cname))).length :=
      one_lt_length_of_two_mem _ a b hau hbu hab
    simp only [createTreatmentFlag, getUniqueTreatments_ok df tcol cname hc]
    rw [if_pos hlen]
  · intro h
    exact createTreatmentFlag_missing_control df tcol tname cname h

theorem c3_multiple_treatments_witness :
    createTreatmentFlag [("t", [Val.str "control", Val.str "X", Val.str "Y"])] "t" "A" "control"
      = .error .multipleTreatmentsError :=
  (c3_multiple_treatments [("t", [Val.str "control", Val.str "X", Val.str "Y"])]
      "t" "A" "control").1 (by decide)
    ⟨Val.str "X", by decide, by decide, Val.str "Y", by decide, by decide, by decide⟩

/-- **C3, counterexample to the claim as stated.**  On a subset with two
distinct non-control labels and no control label, flag injection raises
`MissingControlError`, not `MultipleTreatmentsError` — so the multiplicity
check does not precede the control check. -/
theorem c3_multiple_treatments_counterexample :
    createTreatmentFlag [("t", [Val.str "A", Val.str "B"])] "t" "A" "control"
      = .error .missingControlError
    ∧ (Except.error .missingControlError : Except CausalError Frame)
        ≠ .error .multipleTreatmentsError := by
  constructor
  · decide
  · decide

/-- **C7 (amended).** If the treatment column contains the control label but
not the requested treatment label, the subset filter always raises
`MissingTreatmentError`, and flag injection raises `MissingTreatmentError`
provided the subset holds at most one distinct non-control label (with two
or more it raises `MultipleTreatmentsError` first).  In the filter the
control check precedes the treatment check (third conjunct: when control is
absent the result is `MissingControlError` regardless of the treatment
label), and both checks read the full input column. -/
theorem c7_missing_treatment (df : Frame) (tcol tname cname : String)
    (hc : Val.str cname ∈ getCol df tcol) (ht : Val.str tname ∉ getCol df tcol) :
    filterByTreatment df tcol tname cname = .error .missingTreatmentError
    ∧ ((∀ v ∈ getCol df tcol, v ≠ Val.str cname →
          ∀ w ∈ getCol df tcol, w ≠ Val.str cname → v = w) →
        createTreatmentFlag df tcol tname cname = .error .missingTreatmentError)
    ∧ (∀ df2 : Frame, Val.str cname ∉ getCol df2 tcol →
        filterByTreatment df2 tcol tname cname = .error .missingControlError) := by
  have hcu : Val.str cname ∈ uniqueVals (getCol df tcol) := (mem_uniqueVals _ _).2 hc
  have htu : Val.str tname ∉ uniqueVals (getCol df tcol) :=
    fun hmem => ht ((mem_uniqueVals _ _).1 hmem)
  refine ⟨?_, ?_, ?_⟩
  · simp only [filterByTreatment, if_neg (not_not_intro hcu), if_pos htu]
  · intro hpair
    have hle : ((uniqueVals (getCol df tcol)).filter
        (fun v => decide (v ≠ Val.str cname))).length ≤ 1 := by
      refine length_le_one_of_pairwise_eq _ ((nodup_uniqueVals _).filter _) ?_
      intro x hx y hy
      have hx2 := (mem_treatment_filter df tcol cname x).1 hx
      have hy2 := (mem_treatment_filter df tcol cname y).1 hy
      exact hpair x hx2.1 hx2.2 y hy2.1 hy2.2
    simp only [createTreatmentFlag, getUniqueTreatments_ok df tcol cname hc]
    rw [if_neg (by omega : ¬ 1 < ((uniqueVals (getCol df tcol)).filter
        (fun v => decide (v ≠ Val.str cname))).length),
      if_neg (not_not_intro hcu), if_pos htu]
  · intro df2 h2
    have h2u : Val.str cname ∉ uniqueVals (getCol df2 tcol) :=
      fun hmem => h2 ((mem_uniqueVals _ _).1 hmem)
    simp only [filterByTreatment, if_pos h2u]

theorem c7_missing_treatment_witness :
    filterByTreatment [("t", [Val.str "control", Val.str "X"])] "t" "A" "control"
      = .error .missingTreatmentError
    ∧ createTreatmentFlag [("t", [Val.str "control", Val.str "X"])] "t" "A" "control"
      = .error .missingTreatmentError := by
  have h := c7_missing_treatment [("t", [Val.str "control", Val.str "X"])] "t" "A" "control"
    (by decide) (by decide)
  exact ⟨h.1, h.2.1 (by decide)⟩

/-- **C7, counterexample to the claim as stated.**  With control present, the
requested label "A" absent, and two other non-control labels present, flag
injection raises `MultipleTreatmentsError`, not `MissingTreatmentError`. -/
theorem c7_missing_treatment_counterexample :
    createTreatmentFlag [("t", [Val.str "control", Val.str "X", Val.str "Y"])] "t" "A" "control"
      = .error .multipleTreatmentsError
    ∧ (Except.error .multipleTreatmentsError : Except CausalError Frame)
        ≠ .error .missingTreatmentError := by decide

theorem getCol_filterRows (df : Frame) (mask : List Bool) (c : String) :
    getCol (filterRows df mask) c = applyMask mask (getCol df c) := by
  induction df with
  | nil =>
    simp only [filterRows, List.map_nil, getCol]
    cases mask with
    | nil => rfl
    | cons b bs => cases b <;> rfl
  | cons p ps ih =>
    by_cases hp : p.1 = c
    · simp [filterRows, getCol, hp]
    · simp only [filterRows] at ih ⊢
      simp [getCol, hp, ih]

theorem colNames_filterRows (df : Frame) (mask : List Bool) :
    colNames (filterRows df mask) = colNames df := by
  induction df with
  | nil => rfl
  | cons p ps ih =>
    simp only [filterRows, colNames, List.map_cons] at ih ⊢
    rw [ih]

/-- **C8.** On a valid two-group subset (every row is the treatment label or
the control label, both present, labels distinct), flag injection succeeds
and returns the input frame with the `is_treatment` column appended at the
end, valued `1.0` exactly on the rows whose treatment column equals the
treatment label and `0.0` on the control rows; all other columns, their
values, and the row order are untouched.  (The Python operates on
`df.copy()`, so the caller's frame object is not mutated; under the
embedding's value semantics the input frame is returned extended, never
altered.) -/
theorem c8_flag_injection (df : Frame) (tcol tname cname : String)
    (hc : Val.str cname ∈ getCol df tcol)
    (ht : Val.str tname ∈ getCol df tcol)
    (_hneq : tname ≠ cname)
    (hall : ∀ v ∈ getCol df tcol, v = Val.str tname ∨ v = Val.str cname)
    (hTF : TREATMENT_FEATURE ∉ colNames df) :
    createTreatmentFlag df tcol tname cname
      = .ok (df ++ [(TREATMENT_FEATURE,
          (getCol df tcol).map
            (fun v => if v = Val.str tname then Val.num 1 else Val.num 0))]) := by
  have hcu : Val.str cname ∈ uniqueVals (getCol df tcol) := (mem_uniqueVals _ _).2 hc
  have htu : Val.str tname ∈ uniqueVals (getCol df tcol) := (mem_uniqueVals _ _).2 ht
  have hle : ((uniqueVals (getCol df tcol)).filter
      (fun v => decide (v ≠ Val.str cname))).length ≤ 1 := by
    refine length_le_one_of_pairwise_eq _ ((nodup_uniqueVals _).filter _) ?_
    intro x hx y hy
    have hx2 := (mem_treatment_filter df tcol cname x).1 hx
    have hy2 := (mem_treatment_filter df tcol cname y).1 hy
    have hx3 : x = Val.str tname := (hall x hx2.1).resolve_right hx2.2
    have hy3 : y = Val.str tname := (hall y hy2.1).resolve_right hy2.2
    rw [hx3, hy3]
  simp only [createTreatmentFlag, getUniqueTreatments_ok df tcol cname hc]
  rw [if_neg (by omega : ¬ 1 < ((uniqueVals (getCol df tcol)).filter
      (fun v => decide (v ≠ Val.str cname))).length),
    if_neg (not_not_intro hcu), if_neg (not_not_intro htu),
    setCol_not_mem _ _ _ hTF]

theorem c8_flag_injection_witness :
    createTreatmentFlag
        [("g", [Val.str "T", Val.str "T", Val.str "control"]),
         ("y", [Val.num 1, Val.num 0, Val.num 1])] "g" "T" "control"
      = .ok ([("g", [Val.str "T", Val.str "T", Val.str "control"]),
              ("y", [Val.num 1, Val.num 0, Val.num 1])] ++
          [(TREATMENT_FEATURE,
            (getCol [("g", [Val.str "T", Val.str "T", Val.str "control"]),
              ("y", [Val.num 1, Val.num 0, Val.num 1])] "g").map
              (fun v => if v = Val.str "T" then Val.num 1 else Val.num 0))]) :=
  c8_flag_injection _ "g" "T" "control" (by decide) (by decide) (by decide)
    (by decide) (by decide)

/-- **C9.** If the treatment column contains both the requested treatment
label and the control label, the filter succeeds, returning exactly the rows
whose treatment value is the treatment or control label: the treatment
column of the result is the input column filtered by that predicate (order
preserved, no qualifying row dropped), every value in it is one of the two
labels (no cross-contamination), every other column is filtered by the same
row mask, and the column set is unchanged.  `_fit_by_treatment` feeds
exactly this subset (after flag injection) to each per-treatment fit. -/
theorem c9_filter_two_groups (df : Frame) (tcol tname cname : String)
    (hc : Val.str cname ∈ getCol df tcol)
    (ht : Val.str tname ∈ getCol df tcol) :
    filterByTreatment df tcol tname cname
        = .ok (filterRows df (filterMask (getCol df tcol) tname cname))
    ∧ getCol (filterRows df (filterMask (getCol df tcol) tname cname)) tcol
        = (getCol df tcol).filter
            (fun v => decide (v = Val.str tname) || decide (v = Val.str cname))
    ∧ (∀ v ∈ getCol (filterRows df (filterMask (getCol df tcol) tname cname)) tcol,
        v = Val.str tname ∨ v = Val.str cname)
    ∧ (∀ c : String, getCol (filterRows df (filterMask (getCol df tcol) tname cname)) c
        = applyMask (filterMask (getCol df tcol) tname cname) (getCol df c))
    ∧ colNames (filterRows df (filterMask (getCol df tcol) tname cname)) = colNames df := by
  have hcu : Val.str cname ∈ uniqueVals (getCol df tcol) := (mem_uniqueVals _ _).2 hc
  have htu : Val.str tname ∈ uniqueVals (getCol df tcol) := (mem_uniqueVals _ _).2 ht
  have hfil : getCol (filterRows df (filterMask (getCol df tcol) tname cname)) tcol
      = (getCol df tcol).filter
          (fun v => decide (v = Val.str tname) || decide (v = Val.str cname)) := by
    rw [getCol_filterRows, filterMask, applyMask_map]
  refine ⟨?_, hfil, ?_, ?_, colNames_filterRows _ _⟩
  · simp only [filterByTreatment, if_neg (not_not_intro hcu), if_neg (not_not_intro htu)]
  · intro v hv
    rw [hfil] at hv
    have hp := List.of_mem_filter hv
    simpa using hp
  · intro c
    exact getCol_filterRows df _ c

theorem c9_filter_two_groups_witness :
    filterByTreatment
        [("t", [Val.str "A", Val.str "B", Val.str "control"]),
         ("x", [Val.num 1, Val.num 2, Val.num 3])] "t" "A" "control"
      = .ok [("t", [Val.str "A", Val.str "control"]), ("x", [Val.num 1, Val.num 3])]
    ∧ getCol [("t", [Val.str "A", Val.str "control"]), ("x", [Val.num 1, Val.num 3])] "t"
      = [Val.str "A", Val.str "control"] := by
  have h := c9_filter_two_groups
    [("t", [Val.str "A", Val.str "B", Val.str "control"]),
     ("x", [Val.num 1, Val.num 2, Val.num 3])] "t" "A" "control" (by decide) (by decide)
  exact ⟨by rw [h.1]; decide, by decide⟩

/-- **C5.** `_fit_by_treatment` returns, on success, two mappings whose keys
are exactly the given treatment labels in list insertion order (one fitted
predictor and one log per label); and if the fit for a later treatment
fails — the filter/flag/fit steps for an earlier treatment having
succeeded — the exception propagates unchanged and the whole call yields
`.error`, so the earlier fitted predictor is discarded, never returned
partially. -/
theorem c5_fit_by_treatment {P L : Type} (df : Frame)
    (learner : Frame → Except CausalError (P × Frame × L))
    (tcol cname : String) :
    (∀ (ts : List String) (r : List (String × P) × List (String × L)),
      fitByTreatment df learner tcol cname ts = .ok r →
      r.1.map Prod.fst = ts ∧ r.2.map Prod.fst = ts)
    ∧ (∀ (t : String) (ts : List String) (e : CausalError) (sub flagged : Frame)
        (pr : P) (sdf : Frame) (lg : L),
        filterByTreatment df tcol t cname = .ok sub →
        createTreatmentFlag sub tcol t cname = .ok flagged →
        learner flagged = .ok (pr, sdf, lg) →
        fitByTreatment df learner tcol cname ts = .error e →
        fitByTreatment df learner tcol cname (t :: ts) = .error e) := by
  constructor
  · intro ts
    induction ts with
    | nil =>
      intro r h
      rw [fitByTreatment] at h
      cases h
      exact ⟨rfl, rfl⟩
    | cons t ts ih =>
      intro r h
      rw [fitByTreatment] at h
      cases hf : filterByTreatment df tcol t cname with
      | error e => rw [hf] at h; simp [Bind.bind, Except.bind] at h
      | ok sub =>
        rw [hf] at h
        simp only [Bind.bind, Except.bind] at h
        cases hg : createTreatmentFlag sub tcol t cname with
        | error e => rw [hg] at h; simp at h
        | ok flagged =>
          rw [hg] at h
          dsimp only at h
          cases hl : learner flagged with
          | error e => rw [hl] at h; simp at h
          | ok triple =>
            rw [hl] at h
            obtain ⟨pr, sdf, lg⟩ := triple
            dsimp only at h
            cases hr : fitByTreatment df learner tcol cname ts with
            | error e => rw [hr] at h; simp at h
            | ok r2 =>
              rw [hr] at h
              obtain ⟨fs, ls⟩ := r2
              dsimp only at h
              cases h
              have h2 := ih (fs, ls) hr
              refine ⟨?_, ?_⟩
              · simpa using h2.1
              · simpa using h2.2
  · intro t ts e sub flagged pr sdf lg hfil hflag hl hrec
    rw [fitByTreatment, hfil]
    simp only [Bind.bind, Except.bind]
    rw [hflag]
    dsimp only
    rw [hl]
    dsimp only
    rw [hrec]

theorem c5_fit_by_treatment_witness :
    ([("A", ()), ("B", ())] : List (String × Unit)).map Prod.fst = ["A", "B"]
    ∧ ([("A", ()), ("B", ())] : List (String × Unit)).map Prod.fst = ["A", "B"] :=
  (c5_fit_by_treatment [("t", [Val.str "A", Val.str "B", Val.str "control"])]
      (fun fr => .ok ((), fr, ())) "t" "control").1 ["A", "B"]
    ([("A", ()), ("B", ())], [("A", ()), ("B", ())]) (by decide)

/-- **C4 (amended).** When the underlying predictor succeeds,
`_predict_by_treatment_flag` drops the `is_treatment` column before
returning, so the flag is not present on the frame afterwards regardless of
whether it was present before the call.  When the predictor raises, however,
the exception propagates before the `drop` line runs, and the flag column
remains present on the frame the scorer operated on — the cleanup does not
happen on the failure path. -/
theorem c4_predict_flag_cleanup (df : Frame) (g : Frame → Except CausalError Frame)
    (b : Bool) (p : String) :
    (∀ pdf, g (setCol df TREATMENT_FEATURE
        (List.replicate (nrows df) (Val.num (if b then 1 else 0)))) = .ok pdf →
      TREATMENT_FEATURE ∉ colNames (predictByTreatmentFlag df g b p).2)
    ∧ (∀ e, g (setCol df TREATMENT_FEATURE
        (List.replicate (nrows df) (Val.num (if b then 1 else 0)))) = .error e →
      (predictByTreatmentFlag df g b p).1 = .error e
      ∧ TREATMENT_FEATURE ∈ colNames (predictByTreatmentFlag df g b p).2) := by
  constructor
  · intro pdf hg
    simp only [predictByTreatmentFlag, hg]
    exact not_mem_colNames_dropCol _ _
  · intro e hg
    refine ⟨?_, ?_⟩
    · simp only [predictByTreatmentFlag, hg]
    · simp only [predictByTreatmentFlag, hg]
      exact mem_colNames_setCol _ _ _

theorem c4_predict_flag_cleanup_witness :
    TREATMENT_FEATURE ∉ colNames
      (predictByTreatmentFlag [("x1", [Val.num 0])]
        (fun fr => .ok (setCol fr "prediction" [Val.num 1])) true "prediction").2
    ∧ (predictByTreatmentFlag [("x1", [Val.num 0])]
        (fun _ => .error (.learnerRaised 7)) true "prediction").1
      = .error (.learnerRaised 7) := by
  refine ⟨(c4_predict_flag_cleanup [("x1", [Val.num 0])]
      (fun fr => .ok (setCol fr "prediction" [Val.num 1])) true "prediction").1
      (setCol (setCol [("x1", [Val.num 0])] TREATMENT_FEATURE [Val.num 1])
        "prediction" [Val.num 1]) (by decide), ?_⟩
  exact ((c4_predict_flag_cleanup [("x1", [Val.num 0])]
      (fun _ => .error (.learnerRaised 7)) true "prediction").2
      (.learnerRaised 7) (by decide)).1

/-- **C4, counterexample to the claim as stated.**  A predictor that raises
leaves the `is_treatment` column present on the frame the scorer operated
on: the flag is not removed on every exit path. -/
theorem c4_predict_flag_cleanup_counterexample :
    TREATMENT_FEATURE ∈ colNames
      (predictByTreatmentFlag [("x1", [Val.num 0])]
        (fun _ => .error (.learnerRaised 0)) true "prediction").2 := by decide

/-- **C10.** Neither `_simulate_treatment_effect` nor the prediction closure
`p` returned by `causal_s_classification_learner` mutates the caller's
frame: the loop and the summary columns are written onto the internal copy
taken on entry (`scored_df = df.copy()`), so the caller-owned frame object
is unchanged on return — same columns, same rows, same values.  (Fitted
predictors are pure functions of the frame value in this model, matching
the claim's proviso.) -/
theorem c10_no_caller_mutation (df newDf : Frame) (ts : List String) (cname : String)
    (learners : String → Frame → Except CausalError Frame) (p : String) :
    (simulateTreatmentEffect df ts cname learners p).2 = df
    ∧ (causalSClassificationLearnerP ts cname learners p newDf).2 = newDf
    ∧ colNames (simulateTreatmentEffect df ts cname learners p).2 = colNames df
    ∧ ∀ c, getCol (simulateTreatmentEffect df ts cname learners p).2 c = getCol df c :=
  ⟨rfl, rfl, rfl, fun _ => rfl⟩

/-! ### Claim theorems: the uplift simulator -/

/-- **C2.** For every treatment label `t` in the list (processed in list
order), the simulator adds exactly the three columns
`treatment_<t>__<prediction_column>_on_treatment`,
`treatment_<t>__<prediction_column>_on_control` and
`treatment_<t>__uplift` — the final column list is the input's columns
followed by the three generated names per label in order, then `uplift` and
`suggested_treatment` — the per-label uplift column equals the on-treatment
column minus the on-control column exactly, and the summary `uplift` column
equals the per-row maximum over all per-label uplift columns. -/
theorem c2_scored_columns (df : Frame) (ts : List String) (cname : String)
    (learners : String → Frame → Except CausalError Frame) (p : String) (final : Frame)
    (hok : (simulateTreatmentEffect df ts cname learners p).1 = .ok final)
    (hnd : ts.Nodup) (_hne : ts ≠ [])
    (hTF : TREATMENT_FEATURE ∉ colNames df)
    (hfresh : ∀ t ∈ ts, ∀ c ∈ genNames p t, c ∉ colNames df)
    (hu : "uplift" ∉ colNames df)
    (hs : "suggested_treatment" ∉ colNames df) :
    colNames final = colNames df ++ genNamesAll p ts ++ ["uplift", "suggested_treatment"]
    ∧ (∀ t ∈ ts, getCol final (upliftCol t)
        = subVals (getCol final (onTreatmentCol t p)) (getCol final (onControlCol t p)))
    ∧ (∀ i, i < (getCol final "uplift").length →
        (getCol final "uplift").getD i (Val.num 0)
          = Val.num (maxQ (ts.map (fun t =>
              Val.toQ ((getCol final (upliftCol t)).getD i (Val.num 0)))))) := by
  obtain ⟨sL, hsL, rfl⟩ := simulate_ok df ts cname learners p final hok
  have hloop : colNames sL = colNames df ++ genNamesAll p ts :=
    scoreTreatments_colNames ts df sL learners p hsL hTF hnd hfresh
  have huL : "uplift" ∉ colNames sL := by
    rw [hloop]; simp only [List.mem_append]
    rintro (hc | hc)
    · exact hu hc
    · exact uplift_not_mem_genNamesAll p ts hc
  have hsuL : "suggested_treatment" ∉ colNames sL := by
    rw [hloop]; simp only [List.mem_append]
    rintro (hc | hc)
    · exact hs hc
    · exact suggested_not_mem_genNamesAll p ts hc
  refine ⟨?_, ?_, ?_⟩
  · rw [summarize_colNames sL ts cname huL hsuL, hloop]
  · intro t hmem
    rw [summarize_upliftCol_preserved, summarize_onTreatmentCol_preserved,
      summarize_onControlCol_preserved]
    exact scoreTreatments_uplift ts df sL learners p t hnd hmem hsL
  · intro i hi
    have hrows : ts.map (fun t =>
        Val.toQ ((getCol (summarize sL ts cname) (upliftCol t)).getD i (Val.num 0)))
        = rowAt sL (upliftCols ts) i := by
      unfold rowAt upliftCols
      rw [List.map_map]
      exact List.map_congr_left (fun t _ => by simp [Function.comp, summarize_upliftCol_preserved])
    rw [summarize_uplift] at hi ⊢
    rw [List.length_map, List.length_range] at hi
    rw [getD_map_range _ _ _ hi, hrows]

/-- **C1 (amended).** On every scored row, `suggested_treatment` equals the
control label where the row's maximum uplift across treatments is `≤ 0`, and
on every other row it equals `"treatment_" ++ <label>` — the winning uplift
column's name with only the `"__uplift"` suffix stripped, **retaining** the
`treatment_` decoration, not the bare label — where the label is the first
one in treatments-list order achieving the maximum (first maximal label
wins).  The freshness hypotheses say that neither the labels nor the control
name themselves contain `"__uplift"` (Python's `replace` would mangle such
names). -/
theorem c1_suggested_treatment (df : Frame) (ts : List String) (cname : String)
    (learners : String → Frame → Except CausalError Frame) (p : String) (final : Frame)
    (hok : (simulateTreatmentEffect df ts cname learners p).1 = .ok final)
    (hne : ts ≠ [])
    (hrep : ∀ t ∈ ts, replaceUplift (upliftCol t) = "treatment_" ++ t)
    (hrepc : replaceUplift cname = cname) :
    ∀ i, i < (getCol final "suggested_treatment").length →
      (getCol final "suggested_treatment").getD i (Val.num 0)
        = if maxQ (ts.map (fun t =>
              Val.toQ ((getCol final (upliftCol t)).getD i (Val.num 0)))) ≤ 0
          then Val.str cname
          else Val.str ("treatment_" ++ firstMaxLabel ts
            (ts.map (fun t => Val.toQ ((getCol final (upliftCol t)).getD i (Val.num 0))))
            (maxQ (ts.map (fun t =>
              Val.toQ ((getCol final (upliftCol t)).getD i (Val.num 0)))))) := by
  obtain ⟨sL, hsL, rfl⟩ := simulate_ok df ts cname learners p final hok
  intro i hi
  have hrows : ts.map (fun t =>
      Val.toQ ((getCol (summarize sL ts cname) (upliftCol t)).getD i (Val.num 0)))
      = rowAt sL (upliftCols ts) i := by
    unfold rowAt upliftCols
    rw [List.map_map]
    exact List.map_congr_left (fun t _ => by simp [Function.comp, summarize_upliftCol_preserved])
  rw [summarize_suggested sL ts cname hne] at hi ⊢
  rw [List.length_map, List.length_range] at hi
  rw [getD_map_range _ _ _ hi, hrows]
  by_cases hc : maxQ (rowAt sL (upliftCols ts) i) ≤ 0
  · rw [if_pos hc, if_pos hc, hrepc]
  · rw [if_neg hc, if_neg hc]
    have hmem : firstMaxLabel ts (rowAt sL (upliftCols ts) i)
        (maxQ (rowAt sL (upliftCols ts) i)) ∈ ts :=
      (bestOf_firstMax ts _ (by rw [length_rowAt]; exact List.length_map _ _) hne).2
    rw [hrep _ hmem]

/-! ### Concrete scenario used by the simulator witnesses.
The arithmetic in the scenario is integer-valued, and the four basic `Rat`
operations are made semireducible locally so that the kernel can evaluate
the simulator on the concrete inputs. -/

section ConcreteScenario

attribute [local semireducible] Rat.sub Rat.add Rat.mul Rat.inv

/-- One-row frame with a single feature column. -/
def exDf : Frame := [("x1", [Val.num 0])]

/-- A fitted predictor whose prediction column simply echoes the treatment
flag, so the on-treatment prediction is 1 and the on-control prediction is 0
(uplift 1 on every row). -/
def exLearner : String → Frame → Except CausalError Frame :=
  fun _ fr => .ok (setCol fr "prediction" (getCol fr TREATMENT_FEATURE))

/-- The scored output of the simulator on `exDf` with the single treatment
`"A"`. -/
def exFinal : Frame :=
  ((simulateTreatmentEffect exDf ["A"] "control" exLearner "prediction").1).toOption.getD []

theorem c1_suggested_treatment_witness :
    (getCol exFinal "suggested_treatment").getD 0 (Val.num 0) = Val.str "treatment_A" := by
  have h := c1_suggested_treatment exDf ["A"] "control" exLearner "prediction" exFinal
    (by decide) (by decide) (by decide) (by decide) 0 (by decide)
  rw [h]
  decide

/-- **C1, counterexample to the claim as stated.**  On a concrete scored
dataset whose single row has maximum uplift `1 > 0` achieved by the label
`"A"`, the `suggested_treatment` value is `"treatment_A"` — the column-name
decoration `treatment_` is retained — and not the bare treatment label
`"A"` that the claim promises. -/
theorem c1_suggested_treatment_counterexample :
    (simulateTreatmentEffect exDf ["A"] "control" exLearner "prediction").1 = .ok exFinal
    ∧ (getCol exFinal "uplift").getD 0 (Val.num 0) = Val.num 1
    ∧ (getCol exFinal "suggested_treatment").getD 0 (Val.num 0) = Val.str "treatment_A"
    ∧ Val.str "treatment_A" ≠ Val.str "A" := by decide

theorem c2_scored_columns_witness :
    colNames exFinal
      = colNames exDf ++ genNamesAll "prediction" ["A"] ++ ["uplift", "suggested_treatment"]
    ∧ getCol exFinal (upliftCol "A")
      = subVals (getCol exFinal (onTreatmentCol "A" "prediction"))
          (getCol exFinal (onControlCol "A" "prediction")) := by
  have h := c2_scored_columns exDf ["A"] "control" exLearner "prediction" exFinal
    (by decide) (by decide) (by decide) (by decide) (by decide) (by decide) (by decide)
  exact ⟨h.1, h.2.1 "A" (by decide)⟩

end ConcreteScenario

end FklearnCate
